import Mathlib

/-
Verification of the SciREX anisotropic Poisson inference example
(src/sciml_models/forward_models/poisson_Cu_Aiso_quad_Circle_inference.py).

The script configures a FastvPINNs run on a circular domain meshed with
quadrilaterals.  This file embeds the script's pure functions over ℝ
(boundary-value functions, forcing term `rhs`, `exact_solution`, the
boundary-function and boundary-condition dictionaries, the bilinear-parameter
dictionary, and the evaluation driver's error metrics over real vectors) and
proves the claims about them.  Parts of the pipeline that live in the scirex
library rather than in this snapshot (the quadrature table's point counts and
Fespace2D's boundary-function check) are modelled from the specification and
marked as such in their doc comments.
-/

namespace SciREXPoisson

/-- Configuration constant `i_x_min` (source line 27). -/
def i_x_min : ℝ := -1

/-- Configuration constant `i_x_max` (source line 28). -/
def i_x_max : ℝ := 1

/-- Configuration constant `i_y_min` (source line 29). -/
def i_y_min : ℝ := -1

/-- Configuration constant `i_y_max` (source line 30). -/
def i_y_max : ℝ := 1

/-- Configuration constant `i_quad_order` (source line 42). -/
def i_quad_order : ℕ := 5

/-- Configuration constant `i_quad_type` (source line 43). -/
def i_quad_type : String := "gauss-jacobi"

/-- `left_boundary` (source lines 63-68), including its dead local `val`. -/
noncomputable def left_boundary (x y : ℝ) : ℝ :=
  let val := (0.0 : ℝ)
  (x - y) * Real.cos (8 * x * y) * 0.6

/-- `right_boundary` (source lines 71-76), including its dead local `val`. -/
noncomputable def right_boundary (x y : ℝ) : ℝ :=
  let val := (0.0 : ℝ)
  (x - y) * Real.cos (8 * x * y) * 0.6

/-- `top_boundary` (source lines 79-84), including its dead local `val`. -/
noncomputable def top_boundary (x y : ℝ) : ℝ :=
  let val := (0.0 : ℝ)
  (x - y) * Real.cos (8 * x * y) * 0.6

/-- `bottom_boundary` (source lines 87-92), including its dead local `val`. -/
noncomputable def bottom_boundary (x y : ℝ) : ℝ :=
  let val := (0.0 : ℝ)
  (x - y) * Real.cos (8 * x * y) * 0.6

/-- `rhs` (source lines 95-113), the forcing function, including its dead
locals `omegaX`, `omegaY` and `f_temp`. -/
noncomputable def rhs (x y : ℝ) : ℝ :=
  let omegaX := 2.0 * Real.pi
  let omegaY := 2.0 * Real.pi
  let f_temp := -2.0 * omegaX ^ 2 * (Real.sin (omegaX * x) * Real.sin (omegaY * y));
  -14.4 * x * (x - y) * Real.sin (8 * x * y)
    + x * (38.4 * x * (x - y) * Real.cos (8 * x * y) - 9.6 * Real.sin (8 * x * y))
      * (x ^ 2 - 3 * y + 2)
    + 2 * x * (4.8 * y * (x - y) * Real.sin (8 * x * y) - 0.6 * Real.cos (8 * x * y))
    + y * (38.4 * y * (x - y) * Real.cos (8 * x * y) + 9.6 * Real.sin (8 * x * y))
      * (x ^ 2 - 3 * y + 2)
    - 1.8 * Real.cos (8 * x * y)

/-- The expression `rhs` returns, written without the dead local `f_temp`;
used to state that the dead assignments are semantically inert. -/
noncomputable def rhs_returned_expression (x y : ℝ) : ℝ :=
  -14.4 * x * (x - y) * Real.sin (8 * x * y)
    + x * (38.4 * x * (x - y) * Real.cos (8 * x * y) - 9.6 * Real.sin (8 * x * y))
      * (x ^ 2 - 3 * y + 2)
    + 2 * x * (4.8 * y * (x - y) * Real.sin (8 * x * y) - 0.6 * Real.cos (8 * x * y))
    + y * (38.4 * y * (x - y) * Real.cos (8 * x * y) + 9.6 * Real.sin (8 * x * y))
      * (x ^ 2 - 3 * y + 2)
    - 1.8 * Real.cos (8 * x * y)

/-- `exact_solution` (source lines 116-127), including its dead locals
`omegaX`, `omegaY` and `val` (the leftover alternate expression). -/
noncomputable def exact_solution (x y : ℝ) : ℝ :=
  let omegaX := 2.0 * Real.pi
  let omegaY := 2.0 * Real.pi
  let val := -1.0 * Real.sin (omegaX * x) * Real.sin (omegaY * y)
  (x - y) * Real.cos (8 * x * y) * 0.6

/-- `get_boundary_function_dict` (source lines 130-139), as an association
list in the source's insertion order. -/
noncomputable def get_boundary_function_dict : List (ℕ × (ℝ → ℝ → ℝ)) :=
  [(1000, bottom_boundary), (1001, right_boundary), (1002, top_boundary), (1003, left_boundary)]

/-- `get_bound_cond_dict` (source lines 142-146), as an association list. -/
def get_bound_cond_dict : List (ℕ × String) :=
  [(1000, "dirichlet"), (1001, "dirichlet"), (1002, "dirichlet"), (1003, "dirichlet")]

/-- The coefficient `eps` computed inside `get_bilinear_params_dict`
(source line 153). -/
noncomputable def eps (x y : ℝ) : ℝ := x ^ 2 - 3 * y + 2

/-- The single field name used by `get_bilinear_params_dict`. -/
def eps_key : String := "eps"

/-- `get_bilinear_params_dict` (source lines 149-155), as an association
list with the single field `eps`. -/
noncomputable def get_bilinear_params_dict (x y : ℝ) : List (String × ℝ) :=
  [(eps_key, eps x y)]

/-- Modelled from the spec: the Quadrature Table's 1D point count (the
quadrature code lives in `scirex.core.sciml.fe`, which is not part of this
snapshot).  The spec requires a deterministic count per order for the
"gauss-jacobi" family and fixes the worked example quad order 5 to 10
one-dimensional points (twice the order); an order of 0 or an unknown family
is a ConfigurationError, modelled as `none`. -/
def quadrature_points_1d (order : ℕ) (family : String) : Option ℕ :=
  if family = "gauss-jacobi" ∧ 0 < order then some (2 * order) else none

/-- Modelled from the spec: the 2D tensor-product rule for quadrilateral
cells has (1D count)² quadrature points per cell. -/
def quadrature_points_2d (order : ℕ) (family : String) : Option ℕ :=
  (quadrature_points_1d order family).map fun n => n * n

/-- Modelled from the spec: the Data Handler's interior collocation point
count equals `n_cells × quadrature_points_per_cell`. -/
def interior_point_count (n_cells order : ℕ) (family : String) : Option ℕ :=
  (quadrature_points_2d order family).map fun q => n_cells * q

/-- Modelled from the spec: Fespace2D's eager boundary-function check
(`scirex.core.sciml.fe.fespace2d`, not part of this snapshot).  Every
boundary ID present in `boundary_points` must have a matching entry in the
boundary function map; the first ID without one is reported eagerly as a
MissingBoundaryFunctionError, modelled as the `Except.error` branch carrying
the offending ID, before any training begins. -/
def check_boundary_functions (boundary_ids : List ℕ)
    (fmap : List (ℕ × (ℝ → ℝ → ℝ))) : Except ℕ Unit :=
  match boundary_ids.find? (fun i => (fmap.find? (fun p => p.1 == i)).isNone) with
  | some i => Except.error i
  | none => Except.ok ()

/-- `error = y_pred - y_exact` (source line 306), componentwise on vectors. -/
noncomputable def error_vec (y_pred y_exact : List ℝ) : List ℝ :=
  List.zipWith (fun a b => a - b) y_pred y_exact

/-- `np.mean` on a real vector: sum divided by length. -/
noncomputable def np_mean (l : List ℝ) : ℝ := l.sum / l.length

/-- `np.max` on a real vector (numpy rejects the empty vector; the `[]` case
is an arbitrary placeholder never relied upon). -/
noncomputable def np_max : List ℝ → ℝ
  | [] => 0
  | x :: xs => xs.foldl max x

/-- `l2_error = np.sqrt(np.mean(error**2))` (source line 308). -/
noncomputable def l2_error (err : List ℝ) : ℝ :=
  Real.sqrt (np_mean (err.map fun e => e ^ 2))

/-- `l1_error = np.mean(np.abs(error))` (source line 309). -/
noncomputable def l1_error (err : List ℝ) : ℝ :=
  np_mean (err.map fun e => |e|)

/-- `l_inf_error = np.max(np.abs(error))` (source line 310). -/
noncomputable def l_inf_error (err : List ℝ) : ℝ :=
  np_max (err.map fun e => |e|)

/-- `rel_l2_error` (source line 311). -/
noncomputable def rel_l2_error (y_pred y_exact : List ℝ) : ℝ :=
  l2_error (error_vec y_pred y_exact) / Real.sqrt (np_mean (y_exact.map fun e => e ^ 2))

/-- `rel_l1_error` (source line 312). -/
noncomputable def rel_l1_error (y_pred y_exact : List ℝ) : ℝ :=
  l1_error (error_vec y_pred y_exact) / np_mean (y_exact.map fun e => |e|)

/-- `rel_l_inf_error` (source line 313). -/
noncomputable def rel_l_inf_error (y_pred y_exact : List ℝ) : ℝ :=
  l_inf_error (error_vec y_pred y_exact) / np_max (y_exact.map fun e => |e|)

/-- Closed form of the x-derivative of `exact_solution`. -/
noncomputable def u_x (x y : ℝ) : ℝ :=
  (1 * Real.cos (8 * x * y) + (x - y) * (-Real.sin (8 * x * y) * (8 * y))) * 0.6

/-- Closed form of the y-derivative of `exact_solution`. -/
noncomputable def u_y (x y : ℝ) : ℝ :=
  (-1 * Real.cos (8 * x * y) + (x - y) * (-Real.sin (8 * x * y) * (8 * x))) * 0.6

/-- Closed form of the x-derivative of `u_x` (second derivative in x). -/
noncomputable def u_xx (x y : ℝ) : ℝ :=
  (1 * (-Real.sin (8 * x * y) * (8 * y))
    + (1 * (-Real.sin (8 * x * y) * (8 * y))
        + (x - y) * (-(Real.cos (8 * x * y) * (8 * y)) * (8 * y)))) * 0.6

/-- Closed form of the y-derivative of `u_y` (second derivative in y). -/
noncomputable def u_yy (x y : ℝ) : ℝ :=
  (-1 * (-Real.sin (8 * x * y) * (8 * x))
    + (-1 * (-Real.sin (8 * x * y) * (8 * x))
        + (x - y) * (-(Real.cos (8 * x * y) * (8 * x)) * (8 * x)))) * 0.6

lemma hasDerivAt_arg_x (x y : ℝ) : HasDerivAt (fun t : ℝ => 8 * t * y) (8 * y) x := by
  simpa using ((hasDerivAt_id x).const_mul (8 : ℝ)).mul_const y

lemma hasDerivAt_arg_y (x y : ℝ) : HasDerivAt (fun t : ℝ => 8 * x * t) (8 * x) y := by
  simpa using (hasDerivAt_id y).const_mul (8 * x)

lemma exact_solution_hasDerivAt_x (x y : ℝ) :
    HasDerivAt (fun t => exact_solution t y) (u_x x y) x := by
  have hlin : HasDerivAt (fun t : ℝ => t - y) 1 x := (hasDerivAt_id x).sub_const y
  exact (hlin.mul (hasDerivAt_arg_x x y).cos).mul_const 0.6

lemma exact_solution_hasDerivAt_y (x y : ℝ) :
    HasDerivAt (fun t => exact_solution x t) (u_y x y) y := by
  have hlin : HasDerivAt (fun t : ℝ => x - t) (-1) y := (hasDerivAt_id y).const_sub x
  exact (hlin.mul (hasDerivAt_arg_y x y).cos).mul_const 0.6

lemma u_x_hasDerivAt (x y : ℝ) : HasDerivAt (fun t => u_x t y) (u_xx x y) x := by
  have harg := hasDerivAt_arg_x x y
  have h1 := harg.cos.const_mul (1 : ℝ)
  have hlin : HasDerivAt (fun t : ℝ => t - y) 1 x := (hasDerivAt_id x).sub_const y
  have hterm := (harg.sin.neg).mul_const (8 * y)
  exact (h1.add (hlin.mul hterm)).mul_const 0.6

lemma u_y_hasDerivAt (x y : ℝ) : HasDerivAt (fun t => u_y x t) (u_yy x y) y := by
  have harg := hasDerivAt_arg_y x y
  have h1 := harg.cos.const_mul (-1 : ℝ)
  have hlin : HasDerivAt (fun t : ℝ => x - t) (-1) y := (hasDerivAt_id y).const_sub x
  have hterm := (harg.sin.neg).mul_const (8 * x)
  exact (h1.add (hlin.mul hterm)).mul_const 0.6

lemma eps_hasDerivAt_x (x y : ℝ) : HasDerivAt (fun t => eps t y) (2 * x) x := by
  have h1 : HasDerivAt (fun t : ℝ => t ^ 2) (2 * x) x := by simpa using hasDerivAt_pow 2 x
  exact (h1.sub_const (3 * y)).add_const 2

lemma eps_hasDerivAt_y (x y : ℝ) : HasDerivAt (fun t => eps x t) (-3) y := by
  have h1 : HasDerivAt (fun t : ℝ => 3 * t) 3 y := by
    simpa using (hasDerivAt_id y).const_mul (3 : ℝ)
  simpa using (h1.const_sub (x ^ 2)).add_const 2

lemma flux_x_hasDerivAt (x y : ℝ) :
    HasDerivAt (fun t => eps t y * u_x t y) (2 * x * u_x x y + eps x y * u_xx x y) x :=
  (eps_hasDerivAt_x x y).mul (u_x_hasDerivAt x y)

lemma flux_y_hasDerivAt (x y : ℝ) :
    HasDerivAt (fun t => eps x t * u_y x t) (-3 * u_y x y + eps x y * u_yy x y) y :=
  (eps_hasDerivAt_y x y).mul (u_y_hasDerivAt x y)

lemma abs_map_sum_nonneg (l : List ℝ) : 0 ≤ (l.map fun e => |e|).sum := by
  apply List.sum_nonneg
  intro x hx
  obtain ⟨a, _, rfl⟩ := List.mem_map.mp hx
  exact abs_nonneg a

lemma sq_map_sum_nonneg (l : List ℝ) : 0 ≤ (l.map fun e => e ^ 2).sum := by
  apply List.sum_nonneg
  intro x hx
  obtain ⟨a, _, rfl⟩ := List.mem_map.mp hx
  exact sq_nonneg a

lemma le_foldl_max (l : List ℝ) : ∀ b : ℝ, b ≤ l.foldl max b := by
  induction l with
  | nil => intro b; exact le_refl b
  | cons x xs ih => intro b; exact le_trans (le_max_left b x) (ih (max b x))

lemma mem_le_foldl_max (l : List ℝ) : ∀ (b a : ℝ), a ∈ l → a ≤ l.foldl max b := by
  induction l with
  | nil => intro b a h; cases h
  | cons x xs ih =>
    intro b a h
    rcases List.mem_cons.mp h with rfl | h'
    · exact le_trans (le_max_right b a) (le_foldl_max xs (max b a))
    · exact ih (max b x) a h'

lemma foldl_max_le (l : List ℝ) : ∀ b c : ℝ, b ≤ c → (∀ a ∈ l, a ≤ c) → l.foldl max b ≤ c := by
  induction l with
  | nil => intro b c hb _; exact hb
  | cons x xs ih =>
    intro b c hb h
    exact ih (max b x) c (max_le hb (h x (List.mem_cons_self x xs)))
      fun a ha => h a (List.mem_cons_of_mem x ha)

lemma np_max_ge_mem {l : List ℝ} {a : ℝ} (h : a ∈ l) : a ≤ np_max l := by
  cases l with
  | nil => cases h
  | cons x xs =>
    rcases List.mem_cons.mp h with rfl | h'
    · exact le_foldl_max xs a
    · exact mem_le_foldl_max xs x a h'

lemma np_max_le {l : List ℝ} {c : ℝ} (hne : l ≠ []) (h : ∀ a ∈ l, a ≤ c) : np_max l ≤ c := by
  cases l with
  | nil => exact absurd rfl hne
  | cons x xs =>
    exact foldl_max_le xs x c (h x (List.mem_cons_self x xs))
      fun a ha => h a (List.mem_cons_of_mem x ha)

lemma list_abs_sum_sq_le (l : List ℝ) :
    ((l.map fun e => |e|).sum) ^ 2 ≤ l.length * (l.map fun e => e ^ 2).sum := by
  induction l with
  | nil => simp
  | cons a l ih =>
    simp only [List.map_cons, List.sum_cons, List.length_cons]
    push_cast
    have hS : 0 ≤ (l.map fun e => |e|).sum := abs_map_sum_nonneg l
    have hQ : 0 ≤ (l.map fun e => e ^ 2).sum := sq_map_sum_nonneg l
    have hn : (0 : ℝ) ≤ (l.length : ℝ) := Nat.cast_nonneg _
    rcases eq_or_lt_of_le hQ with hQ0 | hQpos
    · have hs0 : (l.map fun e => |e|).sum = 0 := by
        have h1 : ((l.map fun e => |e|).sum) ^ 2 ≤ 0 := by
          calc ((l.map fun e => |e|).sum) ^ 2
              ≤ l.length * (l.map fun e => e ^ 2).sum := ih
            _ = 0 := by rw [← hQ0]; ring
        have h2 : ((l.map fun e => |e|).sum) ^ 2 = 0 := le_antisymm h1 (sq_nonneg _)
        exact pow_eq_zero_iff (by norm_num) |>.mp h2
      rw [hs0, ← hQ0]
      nlinarith [sq_abs a, sq_nonneg a, hn]
    · nlinarith [ih, sq_abs a, abs_nonneg a, hQpos,
        sq_nonneg ((l.map fun e => |e|).sum * |a| - (l.map fun e => e ^ 2).sum),
        mul_nonneg (sq_nonneg a) (sub_nonneg.mpr ih),
        mul_nonneg (le_of_lt hQpos) (sub_nonneg.mpr ih)]

lemma sum_zero_of_abs_sum_zero (l : List ℝ) (h : (l.map fun e => |e|).sum = 0) :
    ∀ e ∈ l, e = 0 := by
  intro e he
  have hnn : ∀ x ∈ l.map fun e => |e|, (0 : ℝ) ≤ x := by
    intro x hx
    obtain ⟨a, _, rfl⟩ := List.mem_map.mp hx
    exact abs_nonneg a
  have h1 : ∀ x ∈ l.map fun e => |e|, x = 0 := by
    intro x hx
    exact List.all_zero_of_le_zero_le_of_sum_eq_zero hnn h hx
  exact abs_eq_zero.mp (h1 |e| (List.mem_map_of_mem _ he))

lemma zipWith_sub_eq_map_zip :
    ∀ a b : List ℝ, List.zipWith (fun x y => x - y) a b = (a.zip b).map fun p => p.1 - p.2 := by
  intro a
  induction a with
  | nil => intro b; simp
  | cons x xs ih =>
    intro b
    cases b with
    | nil => simp
    | cons y ys => simp [ih ys]

/-- Claim C1: the exact solution solves the configured anisotropic Poisson
equation with the configured forcing: for every real point (x, y),
`rhs x y = -∂x(eps · ∂x u) - ∂y(eps · ∂y u)` where `u = exact_solution` and
`eps` is the single field of `get_bilinear_params_dict`. -/
theorem claim_C1 : ∀ x y : ℝ,
    List.lookup eps_key (get_bilinear_params_dict x y) = some (eps x y) ∧
    rhs x y = -(deriv (fun t => eps t y * deriv (fun s => exact_solution s y) t) x)
              - deriv (fun t => eps x t * deriv (fun s => exact_solution x s) t) y := by
  intro x y
  constructor
  · simp [get_bilinear_params_dict, List.lookup]
  · have hinner_x : (fun t => eps t y * deriv (fun s => exact_solution s y) t)
        = fun t => eps t y * u_x t y := by
      funext t
      rw [(exact_solution_hasDerivAt_x t y).deriv]
    have hinner_y : (fun t => eps x t * deriv (fun s => exact_solution x s) t)
        = fun t => eps x t * u_y x t := by
      funext t
      rw [(exact_solution_hasDerivAt_y x t).deriv]
    rw [hinner_x, hinner_y, (flux_x_hasDerivAt x y).deriv, (flux_y_hasDerivAt x y).deriv]
    simp only [rhs, eps, u_x, u_y, u_xx, u_yy]
    ring

/-- Claim C2: for every real pair (x, y), `get_bilinear_params_dict` returns
a dictionary with exactly one field, named "eps", whose value is
x² − 3y + 2. -/
theorem claim_C2 : ∀ x y : ℝ,
    get_bilinear_params_dict x y = [(eps_key, x ^ 2 - 3 * y + 2)] ∧ eps_key = "eps" := by
  intro x y
  exact ⟨rfl, rfl⟩

/-- Claim C3: all four Dirichlet boundary functions agree with each other
and with the exact solution, which equals 0.6·(x − y)·cos(8xy). -/
theorem claim_C3 : ∀ x y : ℝ,
    left_boundary x y = exact_solution x y ∧
    right_boundary x y = exact_solution x y ∧
    top_boundary x y = exact_solution x y ∧
    bottom_boundary x y = exact_solution x y ∧
    exact_solution x y = 0.6 * (x - y) * Real.cos (8 * x * y) := by
  intro x y
  refine ⟨rfl, rfl, rfl, rfl, ?_⟩
  simp only [exact_solution]
  ring

/-- Claim C4: the dead local assignments are semantically inert: every
boundary function and the exact solution return (x − y)·cos(8xy)·0.6
regardless of the unused `val`, `rhs` returns its final expression
independently of the unused `f_temp`, and the exact solution does not return
the dead alternate expression −sin(2πx)·sin(2πy) (they differ at (1, 0)). -/
theorem claim_C4 :
    (∀ x y : ℝ,
      left_boundary x y = (x - y) * Real.cos (8 * x * y) * 0.6 ∧
      right_boundary x y = (x - y) * Real.cos (8 * x * y) * 0.6 ∧
      top_boundary x y = (x - y) * Real.cos (8 * x * y) * 0.6 ∧
      bottom_boundary x y = (x - y) * Real.cos (8 * x * y) * 0.6 ∧
      exact_solution x y = (x - y) * Real.cos (8 * x * y) * 0.6 ∧
      rhs x y = rhs_returned_expression x y) ∧
    exact_solution 1 0 ≠ -1.0 * Real.sin (2.0 * Real.pi * 1) * Real.sin (2.0 * Real.pi * 0) := by
  constructor
  · intro x y
    exact ⟨rfl, rfl, rfl, rfl, rfl, rfl⟩
  · norm_num [exact_solution, Real.cos_zero, Real.sin_zero]

/-- Claim C5: the boundary function map and the boundary condition map are
aligned over the key set {1000, 1001, 1002, 1003} with no duplicate keys,
and every condition is the string "dirichlet". -/
theorem claim_C5 :
    get_boundary_function_dict.map Prod.fst = [1000, 1001, 1002, 1003] ∧
    get_bound_cond_dict.map Prod.fst = [1000, 1001, 1002, 1003] ∧
    (∀ p ∈ get_bound_cond_dict, p.2 = "dirichlet") ∧
    (get_boundary_function_dict.map Prod.fst).Nodup ∧
    (get_bound_cond_dict.map Prod.fst).Nodup := by
  have hmap : get_boundary_function_dict.map Prod.fst = [1000, 1001, 1002, 1003] := rfl
  refine ⟨hmap, rfl, ?_, ?_, ?_⟩
  · decide
  · rw [hmap]
    decide
  · decide

/-- Claim C6: with the configured quadrature order 5 and family
"gauss-jacobi", the quadrature table produces 10 points in 1D, hence
10 × 10 = 100 points per quadrilateral cell, and the Data Handler's interior
collocation point count equals n_cells × 100. -/
theorem claim_C6 :
    quadrature_points_1d i_quad_order i_quad_type = some 10 ∧
    quadrature_points_2d i_quad_order i_quad_type = some 100 ∧
    ∀ n_cells : ℕ, interior_point_count n_cells i_quad_order i_quad_type
      = some (n_cells * 100) := by
  have h1 : quadrature_points_1d i_quad_order i_quad_type = some 10 := by decide
  have h2 : quadrature_points_2d i_quad_order i_quad_type = some 100 := by decide
  refine ⟨h1, h2, ?_⟩
  intro n_cells
  simp [interior_point_count, h2]

/-- Claim C7: if `boundary_points` contains a boundary ID with no matching
entry in the boundary function map, assembly fails eagerly with a
MissingBoundaryFunctionError naming an unmatched ID; with the map supplied
by `get_boundary_function_dict` (keys 1000-1003 covering all mesh boundary
IDs), the check succeeds. -/
theorem claim_C7 :
    (∀ boundary_ids : List ℕ,
        (∀ i ∈ boundary_ids, i ∈ get_boundary_function_dict.map Prod.fst) →
        check_boundary_functions boundary_ids get_boundary_function_dict = Except.ok ()) ∧
    (∀ (boundary_ids : List ℕ) (fmap : List (ℕ × (ℝ → ℝ → ℝ))) (i : ℕ),
        i ∈ boundary_ids → (∀ p ∈ fmap, p.1 ≠ i) →
        ∃ j, check_boundary_functions boundary_ids fmap = Except.error j ∧
          ∀ p ∈ fmap, p.1 ≠ j) := by
  constructor
  · intro ids h
    unfold check_boundary_functions
    have hfind : ids.find?
        (fun i => (get_boundary_function_dict.find? (fun p => p.1 == i)).isNone) = none := by
      rw [List.find?_eq_none]
      intro i hi
      obtain ⟨p, hp, hpi⟩ := List.mem_map.mp (h i hi)
      have hsome : (get_boundary_function_dict.find? (fun p => p.1 == i)) ≠ none := by
        intro hc
        rw [List.find?_eq_none] at hc
        have := hc p hp
        rw [hpi] at this
        simp at this
      simp only [Option.isNone_iff_eq_none]
      exact fun hc => hsome hc
    rw [hfind]
  · intro ids fmap i hi hnone
    have hpred : (fmap.find? (fun p => p.1 == i)).isNone = true := by
      rw [Option.isNone_iff_eq_none, List.find?_eq_none]
      intro p hp
      simpa using hnone p hp
    rcases hfind : ids.find? (fun j => (fmap.find? (fun p => p.1 == j)).isNone) with _ | j
    · exfalso
      rw [List.find?_eq_none] at hfind
      exact hfind i hi hpred
    · refine ⟨j, ?_, ?_⟩
      · unfold check_boundary_functions
        rw [hfind]
      · have hj := List.find?_some hfind
        rw [Option.isNone_iff_eq_none, List.find?_eq_none] at hj
        intro p hp
        simpa using hj p hp

/-- Witness for claim C7: the shipped map accepts the IDs 1000 and 1003, and
an empty map rejects the ID 42 naming an unmatched ID. -/
theorem claim_C7_witness :
    check_boundary_functions [1000, 1003] get_boundary_function_dict = Except.ok () ∧
    ∃ j, check_boundary_functions [42] ([] : List (ℕ × (ℝ → ℝ → ℝ))) = Except.error j ∧
      ∀ p ∈ ([] : List (ℕ × (ℝ → ℝ → ℝ))), p.1 ≠ j := by
  constructor
  · apply claim_C7.1
    intro i hi
    have hmap : get_boundary_function_dict.map Prod.fst = [1000, 1001, 1002, 1003] := rfl
    rw [hmap]
    simp only [List.mem_cons, List.not_mem_nil, or_false] at hi ⊢
    tauto
  · exact claim_C7.2 [42] [] 42 (List.mem_singleton.mpr rfl)
      (fun p hp => absurd hp (List.not_mem_nil p))

/-- Claim C8: the diffusion coefficient is not positive on the whole
configured domain [−1, 1] × [−1, 1]: at (0, 9/10), which lies in the domain
and strictly inside the unit disk, eps = −7/10 < 0, so the operator is not
uniformly elliptic there. -/
theorem claim_C8 :
    i_x_min ≤ (0 : ℝ) ∧ (0 : ℝ) ≤ i_x_max ∧
    i_y_min ≤ (9 / 10 : ℝ) ∧ (9 / 10 : ℝ) ≤ i_y_max ∧
    (0 : ℝ) ^ 2 + (9 / 10 : ℝ) ^ 2 < 1 ∧
    List.lookup eps_key (get_bilinear_params_dict 0 (9 / 10)) = some (eps 0 (9 / 10)) ∧
    eps 0 (9 / 10) = -(7 / 10) ∧ eps 0 (9 / 10) < 0 := by
  refine ⟨?_, ?_, ?_, ?_, ?_, ?_, ?_, ?_⟩
  · norm_num [i_x_min]
  · norm_num [i_x_max]
  · norm_num [i_y_min]
  · norm_num [i_y_max]
  · norm_num
  · simp [get_bilinear_params_dict, List.lookup]
  · norm_num [eps]
  · norm_num [eps]

/-- Claim C9: the evaluation driver's error metrics equal their reference
definitions, and for equal-length vectors with `y_exact` not identically
zero each relative error times the corresponding norm of `y_exact` recovers
the absolute error. -/
theorem claim_C9 (y_pred y_exact : List ℝ)
    (hlen : y_pred.length = y_exact.length) (hex : ∃ v ∈ y_exact, v ≠ 0) :
    error_vec y_pred y_exact = List.zipWith (fun a b => a - b) y_pred y_exact ∧
    l2_error (error_vec y_pred y_exact)
      = Real.sqrt (np_mean ((error_vec y_pred y_exact).map fun e => e ^ 2)) ∧
    l1_error (error_vec y_pred y_exact)
      = np_mean ((error_vec y_pred y_exact).map fun e => |e|) ∧
    l_inf_error (error_vec y_pred y_exact)
      = np_max ((error_vec y_pred y_exact).map fun e => |e|) ∧
    rel_l2_error y_pred y_exact * Real.sqrt (np_mean (y_exact.map fun e => e ^ 2))
      = l2_error (error_vec y_pred y_exact) ∧
    rel_l1_error y_pred y_exact * np_mean (y_exact.map fun e => |e|)
      = l1_error (error_vec y_pred y_exact) ∧
    rel_l_inf_error y_pred y_exact * np_max (y_exact.map fun e => |e|)
      = l_inf_error (error_vec y_pred y_exact) := by
  obtain ⟨v, hv, hv0⟩ := hex
  have hne : y_exact ≠ [] := List.ne_nil_of_mem hv
  have hlenpos : 0 < (y_exact.length : ℝ) := by
    exact_mod_cast List.length_pos.mpr hne
  have hvabs : 0 < |v| := abs_pos.mpr hv0
  have hv2 : 0 < v ^ 2 := (sq_abs v) ▸ pow_pos hvabs 2
  have hQ : 0 < (y_exact.map fun e => e ^ 2).sum := by
    have hle : v ^ 2 ≤ (y_exact.map fun e => e ^ 2).sum := by
      apply List.single_le_sum
      · intro x hx
        obtain ⟨a, _, rfl⟩ := List.mem_map.mp hx
        exact sq_nonneg a
      · exact List.mem_map_of_mem _ hv
    linarith
  have hD2 : Real.sqrt (np_mean (y_exact.map fun e => e ^ 2)) ≠ 0 := by
    apply ne_of_gt
    apply Real.sqrt_pos.mpr
    unfold np_mean
    rw [List.length_map]
    exact div_pos hQ hlenpos
  have hS : 0 < (y_exact.map fun e => |e|).sum := by
    have hle : |v| ≤ (y_exact.map fun e => |e|).sum := by
      apply List.single_le_sum
      · intro x hx
        obtain ⟨a, _, rfl⟩ := List.mem_map.mp hx
        exact abs_nonneg a
      · exact List.mem_map_of_mem _ hv
    linarith
  have hD1 : np_mean (y_exact.map fun e => |e|) ≠ 0 := by
    apply ne_of_gt
    unfold np_mean
    rw [List.length_map]
    exact div_pos hS hlenpos
  have hDinf : np_max (y_exact.map fun e => |e|) ≠ 0 := by
    apply ne_of_gt
    exact lt_of_lt_of_le hvabs (np_max_ge_mem (List.mem_map_of_mem _ hv))
  refine ⟨rfl, rfl, rfl, rfl, ?_, ?_, ?_⟩
  · simp only [rel_l2_error]
    exact div_mul_cancel₀ _ hD2
  · simp only [rel_l1_error]
    exact div_mul_cancel₀ _ hD1
  · simp only [rel_l_inf_error]
    exact div_mul_cancel₀ _ hDinf

/-- Witness for claim C9 at y_pred = [1], y_exact = [2]. -/
theorem claim_C9_witness :
    (([(1 : ℝ)].length = [(2 : ℝ)].length) ∧ ∃ v ∈ [(2 : ℝ)], v ≠ 0) ∧
    (error_vec [(1 : ℝ)] [(2 : ℝ)] = List.zipWith (fun a b => a - b) [(1 : ℝ)] [(2 : ℝ)] ∧
    l2_error (error_vec [(1 : ℝ)] [(2 : ℝ)])
      = Real.sqrt (np_mean ((error_vec [(1 : ℝ)] [(2 : ℝ)]).map fun e => e ^ 2)) ∧
    l1_error (error_vec [(1 : ℝ)] [(2 : ℝ)])
      = np_mean ((error_vec [(1 : ℝ)] [(2 : ℝ)]).map fun e => |e|) ∧
    l_inf_error (error_vec [(1 : ℝ)] [(2 : ℝ)])
      = np_max ((error_vec [(1 : ℝ)] [(2 : ℝ)]).map fun e => |e|) ∧
    rel_l2_error [(1 : ℝ)] [(2 : ℝ)] * Real.sqrt (np_mean ([(2 : ℝ)].map fun e => e ^ 2))
      = l2_error (error_vec [(1 : ℝ)] [(2 : ℝ)]) ∧
    rel_l1_error [(1 : ℝ)] [(2 : ℝ)] * np_mean ([(2 : ℝ)].map fun e => |e|)
      = l1_error (error_vec [(1 : ℝ)] [(2 : ℝ)]) ∧
    rel_l_inf_error [(1 : ℝ)] [(2 : ℝ)] * np_max ([(2 : ℝ)].map fun e => |e|)
      = l_inf_error (error_vec [(1 : ℝ)] [(2 : ℝ)])) := by
  have hm : (2 : ℝ) ∈ [(2 : ℝ)] := List.mem_singleton.mpr rfl
  have hz : (2 : ℝ) ≠ 0 := by norm_num
  exact ⟨⟨rfl, 2, hm, hz⟩, claim_C9 [1] [2] rfl ⟨2, hm, hz⟩⟩

/-- Claim C10: for non-empty equal-length vectors the absolute error norms
are nonnegative and ordered l1 ≤ l2 ≤ l∞, and all three vanish exactly when
the prediction equals the exact value at every test point. -/
theorem claim_C10 (y_pred y_exact : List ℝ)
    (hlen : y_pred.length = y_exact.length) (hne : y_pred ≠ []) :
    0 ≤ l1_error (error_vec y_pred y_exact) ∧
    0 ≤ l2_error (error_vec y_pred y_exact) ∧
    0 ≤ l_inf_error (error_vec y_pred y_exact) ∧
    l1_error (error_vec y_pred y_exact) ≤ l2_error (error_vec y_pred y_exact) ∧
    l2_error (error_vec y_pred y_exact) ≤ l_inf_error (error_vec y_pred y_exact) ∧
    ((l1_error (error_vec y_pred y_exact) = 0 ∧ l2_error (error_vec y_pred y_exact) = 0 ∧
        l_inf_error (error_vec y_pred y_exact) = 0) ↔
      ∀ p ∈ y_pred.zip y_exact, p.1 = p.2) := by
  have herrlen : (error_vec y_pred y_exact).length = y_exact.length := by
    unfold error_vec
    rw [List.length_zipWith, hlen, min_self]
  have herrne : error_vec y_pred y_exact ≠ [] := by
    intro hnil
    rw [hnil] at herrlen
    have h1 : y_exact = [] := List.length_eq_zero.mp herrlen.symm
    rw [h1, List.length_nil, List.length_eq_zero] at hlen
    exact hne hlen
  set err := error_vec y_pred y_exact with herr
  have hnpos : 0 < (err.length : ℝ) := by
    exact_mod_cast List.length_pos.mpr herrne
  have hl1 : l1_error err = (err.map fun e => |e|).sum / (err.length : ℝ) := by
    unfold l1_error np_mean
    rw [List.length_map]
  have hl2 : l2_error err = Real.sqrt ((err.map fun e => e ^ 2).sum / (err.length : ℝ)) := by
    unfold l2_error np_mean
    rw [List.length_map]
  have hSnn : 0 ≤ (err.map fun e => |e|).sum := abs_map_sum_nonneg err
  have hQnn : 0 ≤ (err.map fun e => e ^ 2).sum := sq_map_sum_nonneg err
  obtain ⟨e0, he0⟩ := List.exists_mem_of_ne_nil err herrne
  have hMnn : 0 ≤ np_max (err.map fun e => |e|) :=
    le_trans (abs_nonneg e0) (np_max_ge_mem (List.mem_map_of_mem _ he0))
  have h1nn : 0 ≤ l1_error err := by
    rw [hl1]
    exact div_nonneg hSnn (le_of_lt hnpos)
  have h12 : l1_error err ≤ l2_error err := by
    rw [hl1, hl2]
    apply (Real.le_sqrt (div_nonneg hSnn (le_of_lt hnpos))
      (div_nonneg hQnn (le_of_lt hnpos))).mpr
    rw [div_pow, div_le_div_iff₀ (pow_pos hnpos 2) hnpos]
    nlinarith [list_abs_sum_sq_le err, hnpos]
  have h2inf : l2_error err ≤ l_inf_error err := by
    rw [hl2]
    unfold l_inf_error
    have hQle : (err.map fun e => e ^ 2).sum
        ≤ (err.length : ℝ) * (np_max (err.map fun e => |e|)) ^ 2 := by
      have hb : ∀ x ∈ err.map fun e => e ^ 2, x ≤ (np_max (err.map fun e => |e|)) ^ 2 := by
        intro x hx
        obtain ⟨a, ha, rfl⟩ := List.mem_map.mp hx
        have haM : |a| ≤ np_max (err.map fun e => |e|) :=
          np_max_ge_mem (List.mem_map_of_mem _ ha)
        nlinarith [sq_abs a, abs_nonneg a]
      have hcard := List.sum_le_card_nsmul (err.map fun e => e ^ 2)
        ((np_max (err.map fun e => |e|)) ^ 2) hb
      rw [List.length_map] at hcard
      calc (err.map fun e => e ^ 2).sum
          ≤ err.length • (np_max (err.map fun e => |e|)) ^ 2 := hcard
        _ = (err.length : ℝ) * (np_max (err.map fun e => |e|)) ^ 2 := by
            rw [nsmul_eq_mul]
    calc Real.sqrt ((err.map fun e => e ^ 2).sum / (err.length : ℝ))
        ≤ Real.sqrt ((np_max (err.map fun e => |e|)) ^ 2) := by
          apply Real.sqrt_le_sqrt
          rw [div_le_iff₀ hnpos]
          linarith [hQle]
      _ = np_max (err.map fun e => |e|) := Real.sqrt_sq hMnn
  refine ⟨h1nn, le_trans h1nn h12, le_trans (le_trans h1nn h12) h2inf, h12, h2inf, ?_⟩
  constructor
  · rintro ⟨h1, -, -⟩
    rw [hl1] at h1
    have hS0 : (err.map fun e => |e|).sum = 0 := by
      rcases div_eq_zero_iff.mp h1 with h | h
      · exact h
      · exact absurd h (ne_of_gt hnpos)
    have hz := sum_zero_of_abs_sum_zero err hS0
    intro p hp
    have hpe : p.1 - p.2 ∈ err := by
      rw [herr]
      unfold error_vec
      rw [zipWith_sub_eq_map_zip]
      exact List.mem_map_of_mem _ hp
    have := hz _ hpe
    linarith [this]
  · intro hp
    have hz : ∀ e ∈ err, e = 0 := by
      intro e he
      rw [herr] at he
      unfold error_vec at he
      rw [zipWith_sub_eq_map_zip] at he
      obtain ⟨q, hq, rfl⟩ := List.mem_map.mp he
      rw [hp q hq]
      ring
    have hS0 : (err.map fun e => |e|).sum = 0 := by
      apply List.sum_eq_zero
      intro x hx
      obtain ⟨a, ha, rfl⟩ := List.mem_map.mp hx
      rw [hz a ha]
      exact abs_zero
    have hQ0 : (err.map fun e => e ^ 2).sum = 0 := by
      apply List.sum_eq_zero
      intro x hx
      obtain ⟨a, ha, rfl⟩ := List.mem_map.mp hx
      rw [hz a ha]
      ring
    refine ⟨?_, ?_, ?_⟩
    · rw [hl1, hS0, zero_div]
    · rw [hl2, hQ0, zero_div, Real.sqrt_zero]
    · unfold l_inf_error
      apply le_antisymm _ hMnn
      apply np_max_le
      · intro hmapnil
        rw [List.map_eq_nil_iff] at hmapnil
        exact herrne hmapnil
      · intro a ha
        obtain ⟨b, hb, rfl⟩ := List.mem_map.mp ha
        rw [hz b hb]
        simp

/-- Witness for claim C10 at y_pred = [1], y_exact = [2]. -/
theorem claim_C10_witness :
    (([(1 : ℝ)].length = [(2 : ℝ)].length) ∧ [(1 : ℝ)] ≠ []) ∧
    (0 ≤ l1_error (error_vec [(1 : ℝ)] [(2 : ℝ)]) ∧
    0 ≤ l2_error (error_vec [(1 : ℝ)] [(2 : ℝ)]) ∧
    0 ≤ l_inf_error (error_vec [(1 : ℝ)] [(2 : ℝ)]) ∧
    l1_error (error_vec [(1 : ℝ)] [(2 : ℝ)]) ≤ l2_error (error_vec [(1 : ℝ)] [(2 : ℝ)]) ∧
    l2_error (error_vec [(1 : ℝ)] [(2 : ℝ)]) ≤ l_inf_error (error_vec [(1 : ℝ)] [(2 : ℝ)]) ∧
    ((l1_error (error_vec [(1 : ℝ)] [(2 : ℝ)]) = 0 ∧
        l2_error (error_vec [(1 : ℝ)] [(2 : ℝ)]) = 0 ∧
        l_inf_error (error_vec [(1 : ℝ)] [(2 : ℝ)]) = 0) ↔
      ∀ p ∈ [(1 : ℝ)].zip [(2 : ℝ)], p.1 = p.2)) := by
  have hne : [(1 : ℝ)] ≠ [] := List.cons_ne_nil 1 []
  exact ⟨⟨rfl, hne⟩, claim_C10 [1] [2] rfl hne⟩

end SciREXPoisson
